import Mathlib

/-!
Verification of the core of a freestanding text-mode snake game:
a VGA frame-buffer writer with line scrolling (vga_buffer.rs) and a
tick-driven game engine (game.rs), shallowly embedded in Lean.
-/

namespace RustOS

/-! ## Frame buffer writer (vga_buffer.rs) -/

def BUFFER_HEIGHT : Nat := 25
def BUFFER_WIDTH : Nat := 80

/-- One cell of the VGA text buffer: an ASCII byte plus a packed color
attribute byte (`ScreenChar` in vga_buffer.rs). -/
structure ScreenChar where
  ascii_character : Nat
  color_code : Nat
deriving DecidableEq, Repr

/-- The writer owning the 25×80 grid (`Writer` in vga_buffer.rs).  The
memory-mapped buffer is modelled as a function from (row, column) to cell. -/
structure Writer where
  column_position : Nat
  color_code : Nat
  chars : Fin 25 → Fin 80 → ScreenChar

/-- `Writer::clear_row`: overwrite one row with blank (space) cells carrying
the writer's current color. -/
def clear_row (w : Writer) (row_index : Fin 25) : Writer :=
  { w with chars := fun r c =>
      if r = row_index then ⟨0x20, w.color_code⟩ else w.chars r c }

/-- `Writer::new_line`: copy every row 1..25 into the row above it, clear the
bottom row, and reset the cursor column to 0. -/
def new_line (w : Writer) : Writer :=
  let copied : Fin 25 → Fin 80 → ScreenChar := fun r c =>
    if h : r.val + 1 < 25 then w.chars ⟨r.val + 1, h⟩ c else w.chars r c
  let w1 := clear_row { w with chars := copied } ⟨24, by decide⟩
  { w1 with column_position := 0 }

/-- `Writer::write_byte`: newline scrolls; otherwise write the byte at the
cursor column on the bottom row (scrolling first if the column would exceed
the grid width) and advance the cursor. -/
def write_byte (w : Writer) (byte : Nat) : Writer :=
  if byte = 10 then new_line w
  else
    let w1 := if w.column_position ≥ BUFFER_WIDTH then new_line w else w
    { w1 with
      chars := fun r c =>
        if r.val = BUFFER_HEIGHT - 1 ∧ c.val = w1.column_position then
          ⟨byte, w1.color_code⟩
        else w1.chars r c,
      column_position := w1.column_position + 1 }

/-- `Writer::write_string`: dispatch each byte — newline passes through,
printable ASCII (0x20–0x7E) passes through, everything else becomes 0xFE. -/
def write_string (w : Writer) (s : List Nat) : Writer :=
  s.foldl (fun w byte =>
    if byte = 10 then write_byte w byte
    else if 0x20 ≤ byte ∧ byte ≤ 0x7e then write_byte w byte
    else write_byte w 0xfe) w

/-- `Writer::write_full_screen`: overwrite every cell of the grid with the
given byte image, using the writer's current color. -/
def write_full_screen (w : Writer) (s : Fin 25 → Fin 80 → Nat) : Writer :=
  { w with chars := fun r c => ⟨s r c, w.color_code⟩ }

/-- `Writer::init`: clear every row. -/
def Writer.init (w : Writer) : Writer :=
  (List.finRange 25).foldl (fun w r => clear_row w r) w

/-- The sanitization a single byte undergoes inside `write_string`. -/
def sanitize (byte : Nat) : Nat :=
  if byte = 10 then byte
  else if 0x20 ≤ byte ∧ byte ≤ 0x7e then byte
  else 0xfe

/-- Folding raw `write_byte` over a list of bytes. -/
def writeBytes (w : Writer) (bs : List Nat) : Writer :=
  bs.foldl write_byte w

/-- A concrete writer state for witnesses: cursor at 0, light-gray-on-black
color (7), all-blank grid. -/
def writer0 : Writer := ⟨0, 7, fun _ _ => ⟨0x20, 7⟩⟩

/-- The ASCII contents of the bottom (streaming) row of the grid. -/
def bottom_row (w : Writer) : List Nat :=
  List.ofFn (fun c : Fin 80 => (w.chars ⟨24, by decide⟩ c).ascii_character)

theorem write_string_eq_map_sanitize (w : Writer) (s : List Nat) :
    write_string w s = writeBytes w (s.map sanitize) := by
  induction s generalizing w with
  | nil => rfl
  | cons b bs ih =>
    simp only [write_string, writeBytes, List.map_cons, List.foldl_cons] at *
    by_cases h10 : b = 10
    · simp [h10, sanitize, ih]
    · by_cases hpr : 0x20 ≤ b ∧ b ≤ 0x7e
      · simp [h10, hpr, sanitize, ih]
      · simp [h10, hpr, sanitize, ih]

/-- C6: `write_string` passes printable bytes (0x20–0x7E) and newline (0x0A)
to `write_byte` unchanged and replaces every other byte with the sentinel
0xFE, leaving all other bytes of the input unaffected: it is exactly the
byte-wise `sanitize` map followed by raw `write_byte` folding, where
`sanitize` fixes newline and printables and sends the rest to 0xFE. -/
theorem C6_write_string_sanitizes :
    (∀ (w : Writer) (s : List Nat),
        write_string w s = writeBytes w (s.map sanitize)) ∧
    (∀ b, 0x20 ≤ b → b ≤ 0x7e → sanitize b = b) ∧
    sanitize 10 = 10 ∧
    (∀ b, b ≠ 10 → ¬ (0x20 ≤ b ∧ b ≤ 0x7e) → sanitize b = 0xfe) := by
  refine ⟨write_string_eq_map_sanitize, ?_, rfl, ?_⟩
  · intro b h1 h2
    simp only [sanitize, if_pos (And.intro h1 h2)]
    split <;> rfl
  · intro b h1 h2
    simp [sanitize, h1, h2]

/-! ### The bottom row after writing a line (claim C1) -/

def printable_byte (b : Nat) : Bool := decide (0x20 ≤ b) && decide (b ≤ 0x7e)

/-- Cursor column after `k` printable bytes have been written since the last
explicit newline. -/
def col_after (k : Nat) : Nat := if k = 0 then 0 else (k - 1) % 80 + 1

/-- The portion of a line that follows the writer's last (implicit) scroll:
everything from the last multiple of 80 strictly below the line's length. -/
def last_chunk (bs : List Nat) : List Nat :=
  bs.drop (80 * ((bs.length - 1) / 80))

/-- A row image: the given bytes (truncated at 80) followed by blanks. -/
def line_padded (bs : List Nat) : List Nat :=
  bs.take 80 ++ List.replicate (80 - bs.length) 0x20

theorem new_line_column (w : Writer) : (new_line w).column_position = 0 := rfl

theorem bottom_row_new_line (w : Writer) :
    bottom_row (new_line w) = List.replicate 80 0x20 := by
  simp [bottom_row, new_line, clear_row, List.ofFn_const]

theorem write_byte_no_scroll (w : Writer) (b : Nat) (hb : b ≠ 10)
    (hcol : w.column_position < 80) :
    write_byte w b =
      { w with
        chars := fun r c =>
          if r.val = 24 ∧ c.val = w.column_position then ⟨b, w.color_code⟩
          else w.chars r c,
        column_position := w.column_position + 1 } := by
  have hge : ¬ (w.column_position ≥ BUFFER_WIDTH) := by
    simp only [BUFFER_WIDTH]; omega
  simp only [write_byte, if_neg hb, hge, if_false, BUFFER_HEIGHT]

theorem bottom_row_write_byte (w : Writer) (b : Nat) (hb : b ≠ 10)
    (hcol : w.column_position < 80) :
    bottom_row (write_byte w b) = (bottom_row w).set w.column_position b := by
  rw [write_byte_no_scroll w b hb hcol]
  apply List.ext_getElem
  · simp [bottom_row]
  · intro i h1 h2
    have h80 : i < 80 := by
      simp only [bottom_row, List.length_ofFn] at h1
      exact h1
    simp only [bottom_row]
    rw [List.getElem_set, List.getElem_ofFn, List.getElem_ofFn]
    by_cases hic : w.column_position = i
    · subst hic
      simp
    · have hic' : ¬ (i = w.column_position) := fun hx => hic hx.symm
      simp [hic, hic']

theorem column_write_byte (w : Writer) (b : Nat) (hb : b ≠ 10)
    (hcol : w.column_position < 80) :
    (write_byte w b).column_position = w.column_position + 1 := by
  rw [write_byte_no_scroll w b hb hcol]

theorem write_byte_of_overflow (w : Writer) (b : Nat) (hb : b ≠ 10)
    (hcol : 80 ≤ w.column_position) :
    write_byte w b = write_byte (new_line w) b := by
  have hge : w.column_position ≥ BUFFER_WIDTH := by
    simp only [BUFFER_WIDTH]; omega
  have hge0 : ¬ ((new_line w).column_position ≥ BUFFER_WIDTH) := by
    simp only [new_line_column, BUFFER_WIDTH]; omega
  simp only [write_byte, if_neg hb, hge, if_true, hge0, if_false]

theorem last_chunk_length (bs : List Nat) :
    (last_chunk bs).length = col_after bs.length := by
  simp only [last_chunk, List.length_drop, col_after]
  split
  · omega
  · omega

theorem line_padded_set (l : List Nat) (b : Nat) (h : l.length < 80) :
    (line_padded l).set l.length b = line_padded (l ++ [b]) := by
  have htake : l.take 80 = l := List.take_of_length_le (by omega)
  have htake' : (l ++ [b]).take 80 = l ++ [b] :=
    List.take_of_length_le (by simp; omega)
  have hrep : List.replicate (80 - l.length) (0x20 : Nat) =
      0x20 :: List.replicate (79 - l.length) 0x20 := by
    have h80 : 80 - l.length = (79 - l.length) + 1 := by omega
    rw [h80, List.replicate_succ]
  have hlen2 : 80 - (l ++ [b]).length = 79 - l.length := by
    simp only [List.length_append, List.length_cons, List.length_nil]
    omega
  simp only [line_padded, htake, htake', hlen2]
  rw [List.set_append_right _ _ (le_refl _), Nat.sub_self, hrep,
    List.set_cons_zero, List.append_cons]

theorem write_byte_line_step (w : Writer) (b : Nat) (prev : List Nat)
    (hb : printable_byte b = true)
    (hcol : w.column_position = col_after prev.length)
    (hbot : bottom_row w = line_padded (last_chunk prev)) :
    (write_byte w b).column_position = col_after (prev ++ [b]).length ∧
    bottom_row (write_byte w b) = line_padded (last_chunk (prev ++ [b])) := by
  have hbrange : 0x20 ≤ b ∧ b ≤ 0x7e := by
    simpa [printable_byte] using hb
  have hb10 : b ≠ 10 := by omega
  have hlen : (prev ++ [b]).length = prev.length + 1 := by simp
  have hchunklen : (last_chunk prev).length = col_after prev.length :=
    last_chunk_length prev
  by_cases hc : w.column_position < 80
  · -- no scroll: the byte lands at the current column
    refine ⟨?_, ?_⟩
    · rw [column_write_byte w b hb10 hc, hlen, hcol]
      have hccc : col_after prev.length < 80 := hcol ▸ hc
      by_cases h0 : prev.length = 0
      · simp [col_after, h0]
      · simp only [col_after, h0, if_false,
          if_neg (by omega : ¬ prev.length + 1 = 0)]
        simp only [col_after, h0, if_false] at hccc
        omega
    · rw [bottom_row_write_byte w b hb10 hc, hbot, hcol, ← hchunklen,
        line_padded_set _ b (by rw [hchunklen, ← hcol]; exact hc)]
      have hchunk : last_chunk (prev ++ [b]) = last_chunk prev ++ [b] := by
        have hdiv : (prev.length + 1 - 1) / 80 = (prev.length - 1) / 80 := by
          have hccc : col_after prev.length < 80 := hcol ▸ hc
          simp only [col_after] at hccc
          split at hccc <;> omega
        simp only [last_chunk, hlen, hdiv]
        exact List.drop_append_of_le_length (by omega)
      rw [hchunk]
  · -- the column is full: the write scrolls first
    have hc80 : 80 ≤ w.column_position := by omega
    have hcfacts : prev.length ≠ 0 ∧ prev.length % 80 = 0 := by
      simp only [col_after] at hcol
      constructor
      · intro h0
        rw [if_pos h0] at hcol
        omega
      · split at hcol <;> omega
    rw [write_byte_of_overflow w b hb10 hc80]
    have hnlcol : (new_line w).column_position < 80 := by
      rw [new_line_column]; omega
    refine ⟨?_, ?_⟩
    · rw [column_write_byte _ b hb10 hnlcol, new_line_column, hlen]
      simp only [col_after]
      have := hcfacts.2
      split <;> omega
    · rw [bottom_row_write_byte _ b hb10 hnlcol, bottom_row_new_line, new_line_column]
      have hpad : List.replicate 80 (0x20 : Nat) = line_padded [] := by
        simp [line_padded]
      rw [hpad]
      have h0 : (line_padded ([] : List Nat)).set 0 b = line_padded [b] := by
        have := line_padded_set ([] : List Nat) b (by simp)
        simpa using this
      rw [show (0 : Nat) = ([] : List Nat).length from rfl, line_padded_set _ b (by simp)]
      have hchunk : last_chunk (prev ++ [b]) = [b] := by
        simp only [last_chunk, hlen, Nat.add_sub_cancel]
        have : 80 * (prev.length / 80) = prev.length := by omega
        rw [this, List.drop_append_of_le_length (le_refl _), List.drop_length]
        rfl
      rw [hchunk]
      rfl

theorem writeBytes_line (bs : List Nat) : ∀ (prev : List Nat) (w : Writer),
    (∀ b ∈ bs, printable_byte b = true) →
    w.column_position = col_after prev.length →
    bottom_row w = line_padded (last_chunk prev) →
    (writeBytes w bs).column_position = col_after (prev ++ bs).length ∧
    bottom_row (writeBytes w bs) = line_padded (last_chunk (prev ++ bs)) := by
  induction bs with
  | nil =>
    intro prev w _ hcol hbot
    simpa [writeBytes] using ⟨hcol, hbot⟩
  | cons b rest ih =>
    intro prev w hp hcol hbot
    have hstep := write_byte_line_step w b prev (hp b (by simp)) hcol hbot
    have hrest := ih (prev ++ [b]) (write_byte w b)
      (fun x hx => hp x (by simp [hx])) hstep.1 hstep.2
    simpa [writeBytes, List.append_assoc] using hrest

theorem write_line_bottom (w : Writer) (bs : List Nat)
    (hp : ∀ b ∈ bs, printable_byte b = true) :
    bottom_row (write_string w (10 :: bs)) = line_padded (last_chunk bs) := by
  have hsan1 : ∀ b, printable_byte b = true → sanitize b = b := by
    intro b hbp
    simp only [printable_byte, Bool.and_eq_true, decide_eq_true_eq] at hbp
    by_cases h10 : b = 10
    · simp [sanitize, h10]
    · unfold sanitize
      rw [if_neg h10, if_pos hbp]
  have hsan : bs.map sanitize = bs := by
    rw [List.map_congr_left (g := id) (fun a ha => hsan1 a (hp a ha)), List.map_id]
  have h1 : write_string w (10 :: bs) = writeBytes (new_line w) bs := by
    rw [write_string_eq_map_sanitize]
    simp only [List.map_cons, hsan]
    show writeBytes (write_byte w (sanitize 10)) bs = _
    have : write_byte w (sanitize 10) = new_line w := by
      simp [sanitize, write_byte]
    rw [this]
  rw [h1]
  have := writeBytes_line bs [] (new_line w) hp
    (by simp [new_line_column, col_after])
    (by rw [bottom_row_new_line]; simp [last_chunk, line_padded])
  simpa using this.2

/-- C1 (counterexample): writing a newline and then a line of 81 printable
bytes (all 'A' = 65) leaves the bottom row holding only the single byte that
followed the wrap-induced scroll, not the first 80 bytes of the line. -/
theorem C1_counterexample :
    (∀ b ∈ List.replicate 81 65, printable_byte b = true) ∧
    bottom_row (write_string writer0 (10 :: List.replicate 81 65)) ≠
      line_padded (List.replicate 81 65) := by
  refine ⟨by decide, ?_⟩
  have h := write_line_bottom writer0 (List.replicate 81 65) (by decide)
  rw [h]
  decide

/-- C1 (amended): after writing, from any writer state, a newline followed by
a line of printable bytes, the bottom row holds exactly the portion of the
line that follows its last wrap point — the bytes from the largest multiple
of 80 strictly below the line length — padded with blanks; for lines of at
most 80 bytes this is the whole line. -/
theorem C1_bottom_row_after_line (w : Writer) (bs : List Nat)
    (hp : ∀ b ∈ bs, printable_byte b = true) :
    bottom_row (write_string w (10 :: bs)) = line_padded (last_chunk bs) :=
  write_line_bottom w bs hp

/-- Witness for C1 at a concrete input: an 81-byte line of 'A's. -/
theorem C1_witness :
    (∀ b ∈ List.replicate 81 65, printable_byte b = true) ∧
    bottom_row (write_string writer0 (10 :: List.replicate 81 65)) =
      line_padded (last_chunk (List.replicate 81 65)) :=
  ⟨by decide, C1_bottom_row_after_line writer0 (List.replicate 81 65) (by decide)⟩

/-- Witness for C6 at concrete inputs: byte 65 ('A') is printable and kept,
newline kept, byte 200 replaced by 0xFE. -/
theorem C6_witness :
    write_string writer0 [65, 10, 200] =
      writeBytes writer0 ([65, 10, 200].map sanitize) ∧
    sanitize 65 = 65 ∧ sanitize 10 = 10 ∧ sanitize 200 = 0xfe :=
  ⟨C6_write_string_sanitizes.1 writer0 [65, 10, 200],
   C6_write_string_sanitizes.2.1 65 (by decide) (by decide),
   C6_write_string_sanitizes.2.2.1,
   C6_write_string_sanitizes.2.2.2 200 (by decide) (by decide)⟩

/-! ## Game engine (game.rs) -/

def MAX_SNAKE_LENGTH : Nat := 100
def SNAKE_START_ROW : Nat := 11
def SNAKE_START_COLUMN : Nat := 0
def SNAKE_START_LENGTH : Nat := 3
def GAME_ROWS : Nat := 23
def GAME_COLUMNS : Nat := 78

inductive Difficulty where
  | Easy
  | Medium
  | Hard
deriving DecidableEq, Repr

/-- `Difficulty::as_u32`: the tick divisor of each difficulty. -/
def Difficulty.as_u32 : Difficulty → Nat
  | .Easy => 10
  | .Medium => 5
  | .Hard => 3

inductive Direction where
  | Up
  | Down
  | Left
  | Right
deriving DecidableEq, Repr

/-- A play-field coordinate `Position(row, column)`. -/
structure Position where
  row : Nat
  col : Nat
deriving DecidableEq, Repr

/-- The snake: a fixed-capacity buffer of positions (tail at index 0, head at
index `length - 1`), a logical length, the current direction, and the
optional treat. -/
structure Snake where
  positions : List Position
  length : Nat
  direction : Direction
  treat : Option Position
deriving DecidableEq, Repr

/-- `Snake::body`: the logically live positions. -/
def Snake.body (s : Snake) : List Position :=
  s.positions.take s.length

/-- `Snake::head`: `body()[length - 1]`. -/
def Snake.head (s : Snake) : Position :=
  s.body.getD (s.length - 1) ⟨0, 0⟩

/-- `Snake::occupies`. -/
def Snake.occupies (s : Snake) (position : Position) : Bool :=
  s.body.contains position

/-- `Snake::has_treat`. -/
def Snake.has_treat (s : Snake) (position : Position) : Bool :=
  match s.treat with
  | some treat_position => treat_position = position
  | none => false

/-- `Snake::is_at_maximum_length`. -/
def Snake.is_at_maximum_length (s : Snake) : Bool :=
  s.length = MAX_SNAKE_LENGTH

/-- `Snake::next_step`: the cell one step ahead of the head in the current
direction, or `none` when that step would leave the play-field. -/
def Snake.next_step (s : Snake) : Option Position :=
  match s.direction with
  | .Right =>
      if s.head.col = GAME_COLUMNS - 1 then none
      else some ⟨s.head.row, s.head.col + 1⟩
  | .Down =>
      if s.head.row = GAME_ROWS - 1 then none
      else some ⟨s.head.row + 1, s.head.col⟩
  | .Left =>
      if s.head.col = 0 then none
      else some ⟨s.head.row, s.head.col - 1⟩
  | .Up =>
      if s.head.row = 0 then none
      else some ⟨s.head.row - 1, s.head.col⟩

/-- `Snake::grow`, as a state transformer returning the (possibly unchanged)
snake together with the error message, if any.  Mirrors the in-place `&mut
self` mutation: every error path leaves the snake exactly as it was. -/
def Snake.grow (s : Snake) : Snake × Option String :=
  if s.is_at_maximum_length then (s, some "Snake is at maximum length")
  else
    match s.next_step with
    | some position =>
        if ¬ s.occupies position then
          let s1 : Snake := { s with
            positions := s.positions.set s.length position,
            length := s.length + 1 }
          let s2 : Snake :=
            if s1.treat = some position then { s1 with treat := none } else s1
          (s2, none)
        else (s, some "Your snake bit itself!")
    | none => (s, some "Bounds reached!")

/-- `Snake::move_snake`: grow onto the treat, or shift the body one slot
toward the tail and append the new head, or fail. -/
def Snake.move_snake (s : Snake) : Snake × Option String :=
  match s.next_step with
  | some next_head =>
      if some next_head = s.treat then s.grow
      else if ¬ s.occupies next_head then
        let shifted := (List.range (s.length - 1)).foldl
          (fun ps i => ps.set i (ps.getD (i + 1) ⟨0, 0⟩)) s.positions
        ({ s with positions := shifted.set (s.length - 1) next_head }, none)
      else (s, some "Your snake bit itself!")
  | none => (s, some "Bounds reached!")

/-- `Snake::turn`: a 180° reversal is ignored; anything else replaces the
current direction. -/
def Snake.turn (s : Snake) (new_direction : Direction) : Snake :=
  match s.direction, new_direction with
  | .Right, .Left => s
  | .Left, .Right => s
  | .Up, .Down => s
  | .Down, .Up => s
  | _, _ => { s with direction := new_direction }

/-- `Snake::new`: a 1-cell snake at the start position grown twice (to
`SNAKE_START_LENGTH`) moving Right with no treat.  `.unwrap()` on the grows
is modelled by keeping the successful result (both grows provably succeed). -/
def Snake.new : Snake :=
  let s : Snake :=
    { positions := List.replicate MAX_SNAKE_LENGTH ⟨SNAKE_START_ROW, SNAKE_START_COLUMN⟩,
      length := 1,
      direction := .Right,
      treat := none }
  (List.range' 1 (SNAKE_START_LENGTH - 1)).foldl (fun s _ => s.grow.1) s

/-- Key events from the external keyboard decoding layer (pc_keyboard). -/
inductive KeyState where
  | Down
  | Up
deriving DecidableEq, Repr

inductive KeyCode where
  | ArrowUp
  | ArrowRight
  | ArrowDown
  | ArrowLeft
  | Other (code : Nat)
deriving DecidableEq, Repr

structure KeyEvent where
  code : KeyCode
  state : KeyState
deriving DecidableEq, Repr

/-- The game singleton's state.  The `spin::Mutex<u32>` counter is a plain
u32 value here (the lock only guards interrupt re-entrancy). -/
structure Game where
  difficulty : Difficulty
  counter : Nat
  snake : Snake
  game_over : Bool
  next_move : Option Direction
deriving DecidableEq, Repr

/-- `Game::new`. -/
def Game.new : Game :=
  { difficulty := .Hard,
    counter := 0,
    snake := Snake.new,
    game_over := false,
    next_move := none }

/-- `Game::fetch_add_counter`'s mutation: the u32 counter is incremented and
wraps at 2^32; the pre-increment value is what `refresh_frame` inspects. -/
def Game.bump_counter (g : Game) : Game :=
  { g with counter := (g.counter + 1) % 4294967296 }

/-- One rejection-sampling pass of `Game::make_treat`'s loop over the random
values the `get_random_u32` source would deliver, in order, two per
iteration.  `none` models the source running out (the Rust loop would keep
spinning); any placed treat is an unoccupied in-field cell. -/
def sample_treat (s : Snake) : List Nat → Option (Position × List Nat)
  | r1 :: r2 :: rest =>
      let position : Position := ⟨r1 % GAME_ROWS, r2 % GAME_COLUMNS⟩
      if ¬ s.occupies position then some (position, rest)
      else sample_treat s rest
  | _ => none

/-- `Game::make_treat`: when the snake is below maximum length and there is
no treat, rejection-sample an unoccupied play-field cell and place the treat
there. -/
def Game.make_treat (g : Game) (randoms : List Nat) : Game × List Nat :=
  if ¬ g.snake.is_at_maximum_length then
    match g.snake.treat with
    | some _ => (g, randoms)
    | none =>
        match sample_treat g.snake randoms with
        | some pr => ({ g with snake := { g.snake with treat := some pr.1 } }, pr.2)
        | none => (g, randoms)
  else (g, randoms)

/-- The character drawn at a play-field cell by `Game::print`'s inner loop. -/
def Game.cell_char (g : Game) (row column : Nat) : Nat :=
  let position : Position := ⟨row, column⟩
  if position = g.snake.head then
    match g.snake.direction with
    | .Right => 62
    | .Down => 118
    | .Left => 60
    | .Up => 94
  else if g.snake.has_treat position then 120
  else if g.snake.occupies position then 43
  else 32

/-- The full 25×80 byte image `Game::print` assembles: a `#` border and the
play-field contents shifted one cell in from the border. -/
def Game.render_array (g : Game) : Fin 25 → Fin 80 → Nat := fun r c =>
  if r.val = 0 ∨ r.val = 24 ∨ c.val = 0 ∨ c.val = 79 then 35
  else g.cell_char (r.val - 1) (c.val - 1)

/-- `Game::print`: submit the rendered image through `write_full_screen`. -/
def Game.print (g : Game) (w : Writer) : Writer :=
  write_full_screen w g.render_array

/-- The bytes of an ASCII message string. -/
def str_bytes (s : String) : List Nat :=
  s.data.map Char.toNat

/-- The `print!("{:^80}", msg)` centering: pad the message with spaces to
width 80, extra space on the right. -/
def center80 (msg : List Nat) : List Nat :=
  if 80 ≤ msg.length then msg
  else
    let pad := 80 - msg.length
    List.replicate (pad / 2) 0x20 ++ msg ++ List.replicate (pad - pad / 2) 0x20

/-- `Game::print_msg`: 25 newlines, the centered message, 13 newlines, all
through the scrolling text path. -/
def print_msg (w : Writer) (msg : String) : Writer :=
  let w1 := (List.range 25).foldl (fun w _ => write_string w [10]) w
  let w2 := write_string w1 (center80 (str_bytes msg))
  (List.range 13).foldl (fun w _ => write_string w [10]) w2

/-- The simulation step `Game::refresh_frame` performs on a qualifying tick
(counter already incremented): place a treat, apply the pending direction,
move the snake, then render or — on failure — set `game_over` and print the
terminal message; the pending direction is cleared either way. -/
def Game.simulation_step (g : Game) (w : Writer) (randoms : List Nat) :
    Game × Writer × List Nat :=
  let g2 := (g.make_treat randoms).1
  let randoms2 := (g.make_treat randoms).2
  let g3 : Game :=
    match g2.next_move with
    | some direction => { g2 with snake := g2.snake.turn direction }
    | none => g2
  let mv := g3.snake.move_snake
  match mv.2 with
  | none =>
      ({ g3 with snake := mv.1, next_move := none },
       Game.print { g3 with snake := mv.1 } w, randoms2)
  | some msg =>
      ({ g3 with snake := mv.1, game_over := true, next_move := none },
       print_msg w msg, randoms2)

/-- `Game::refresh_frame`: read-and-increment the counter; if the
pre-increment value is divisible by the difficulty divisor and the game is
not over, perform the simulation step, else change nothing further. -/
def Game.refresh_frame (g : Game) (w : Writer) (randoms : List Nat) :
    Game × Writer × List Nat :=
  let counter := g.counter
  let g1 := g.bump_counter
  if counter % g1.difficulty.as_u32 = 0 ∧ g1.game_over = false then
    g1.simulation_step w randoms
  else (g1, w, randoms)

/-- `Game::accept_keyboard_input`: a key-press of an arrow key overwrites the
pending direction; everything else changes nothing. -/
def Game.accept_keyboard_input (g : Game) (key_event : KeyEvent) : Game :=
  match key_event.state with
  | .Down =>
      { g with next_move :=
          match key_event.code with
          | .ArrowUp => some .Up
          | .ArrowRight => some .Right
          | .ArrowDown => some .Down
          | .ArrowLeft => some .Left
          | _ => g.next_move }
  | _ => g

/-- The external stimuli driving the engine: a timer tick (carrying the
random values `get_random_u32` would deliver during it) or a key event. -/
inductive Event where
  | tick (randoms : List Nat)
  | key (e : KeyEvent)

/-- Combined engine + display state. -/
structure SysState where
  game : Game
  writer : Writer

/-- One external stimulus applied to the system. -/
def SysState.step (s : SysState) : Event → SysState
  | .tick randoms =>
      let r := s.game.refresh_frame s.writer randoms
      ⟨r.1, r.2.1⟩
  | .key e => ⟨s.game.accept_keyboard_input e, s.writer⟩

/-- A whole stimulus history applied in order. -/
def SysState.run (s : SysState) (es : List Event) : SysState :=
  es.foldl SysState.step s

/-! ### Basic facts about the snake operations -/

theorem occupies_iff (s : Snake) (p : Position) :
    s.occupies p = true ↔ p ∈ s.body := by
  simp only [Snake.occupies]
  exact List.elem_iff

/-- Whether two directions are 180° opposites (the pairs `turn` ignores). -/
def Direction.is_reversal (a b : Direction) : Bool :=
  match a, b with
  | .Right, .Left => true
  | .Left, .Right => true
  | .Up, .Down => true
  | .Down, .Up => true
  | _, _ => false

theorem turn_of_reversal (s : Snake) (d : Direction)
    (h : Direction.is_reversal s.direction d = true) : s.turn d = s := by
  cases hd : s.direction <;> cases d <;>
    simp_all [Direction.is_reversal, Snake.turn]

theorem turn_of_not_reversal (s : Snake) (d : Direction)
    (h : Direction.is_reversal s.direction d = false) :
    s.turn d = { s with direction := d } := by
  cases hd : s.direction <;> cases d <;>
    simp_all [Direction.is_reversal, Snake.turn]

theorem turn_direction (s : Snake) (d : Direction) :
    (s.turn d).direction =
      if Direction.is_reversal s.direction d then s.direction else d := by
  cases hrev : Direction.is_reversal s.direction d
  · rw [turn_of_not_reversal s d hrev]
    rfl
  · rw [turn_of_reversal s d hrev]
    simp

theorem turn_fields (s : Snake) (d : Direction) :
    (s.turn d).positions = s.positions ∧ (s.turn d).length = s.length ∧
    (s.turn d).treat = s.treat := by
  cases hd : s.direction <;> cases d <;> simp_all [Snake.turn]

theorem grow_fst_direction (s : Snake) : (s.grow.1).direction = s.direction := by
  unfold Snake.grow
  split
  · rfl
  · split
    · split
      · dsimp only
        split <;> rfl
      · rfl
    · rfl

theorem move_snake_fst_direction (s : Snake) :
    (s.move_snake.1).direction = s.direction := by
  unfold Snake.move_snake
  split
  · split
    · exact grow_fst_direction s
    · split
      · rfl
      · rfl
  · rfl

theorem grow_err_preserves (s : Snake) (h : s.grow.2.isSome = true) :
    s.grow.1 = s := by
  unfold Snake.grow at h ⊢
  by_cases hmax : s.is_at_maximum_length = true
  · simp [hmax]
  · simp only [if_neg hmax] at h ⊢
    cases hns : s.next_step with
    | none => simp [hns]
    | some p =>
      simp only [hns] at h ⊢
      by_cases hocc : s.occupies p = true
      · have hcc : ¬ (¬ s.occupies p = true) := by simp [hocc]
        simp only [if_neg hcc] at h ⊢
      · have hcc : ¬ s.occupies p = true := by simp [hocc]
        simp only [if_pos hcc] at h
        simp at h

theorem move_snake_err_preserves (s : Snake) (h : s.move_snake.2.isSome = true) :
    s.move_snake.1 = s := by
  unfold Snake.move_snake at h ⊢
  cases hns : s.next_step with
  | none => simp [hns]
  | some p =>
    simp only [hns] at h ⊢
    by_cases ht : some p = s.treat
    · simp only [if_pos ht] at h ⊢
      exact grow_err_preserves s h
    · simp only [if_neg ht] at h ⊢
      by_cases hocc : s.occupies p = true
      · have hcc : ¬ (¬ s.occupies p = true) := by simp [hocc]
        simp only [if_neg hcc] at h ⊢
      · have hcc : ¬ s.occupies p = true := by simp [hocc]
        simp only [if_pos hcc] at h
        simp at h

/-- C9: whenever `move_snake` returns an error (bounds exceeded,
self-collision, or a propagated grow failure), the snake's positions array,
logical length, direction and treat are exactly as they were before. -/
theorem C9_move_snake_error_mutates_nothing (s : Snake) (msg : String)
    (h : s.move_snake.2 = some msg) :
    (s.move_snake.1).positions = s.positions ∧
    (s.move_snake.1).length = s.length ∧
    (s.move_snake.1).direction = s.direction ∧
    (s.move_snake.1).treat = s.treat := by
  have heq : s.move_snake.1 = s := move_snake_err_preserves s (by simp [h])
  rw [heq]
  exact ⟨rfl, rfl, rfl, rfl⟩

/-- Witness for C9: a 1-cell snake at the rightmost play-field column moving
Right fails with the bounds error and is left unchanged. -/
theorem C9_witness :
    (Snake.move_snake ⟨List.replicate 100 ⟨11, 77⟩, 1, .Right, none⟩).2 =
        some "Bounds reached!" ∧
    ((Snake.move_snake ⟨List.replicate 100 ⟨11, 77⟩, 1, .Right, none⟩).1).positions =
        List.replicate 100 ⟨11, 77⟩ :=
  ⟨by decide,
   (C9_move_snake_error_mutates_nothing ⟨List.replicate 100 ⟨11, 77⟩, 1, .Right, none⟩
     "Bounds reached!" (by decide)).1⟩

/-- C10: for a snake of length ≥ 2 whose next head position is the current
tail cell (body index 0) and is not the treat, `move_snake` reports the
self-collision error and performs no move: the occupancy check covers the
whole current body including the tail cell the move would vacate. -/
theorem C10_tail_collision_detected (s : Snake) (p : Position)
    (hlen : 2 ≤ s.length) (hcap : s.length ≤ s.positions.length)
    (hns : s.next_step = some p)
    (htail : s.body.getD 0 ⟨0, 0⟩ = p)
    (htreat : s.treat ≠ some p) :
    s.move_snake = (s, some "Your snake bit itself!") := by
  have hbodylen : s.body.length = s.length := by
    simp [Snake.body, hcap]
  have hmem : p ∈ s.body := by
    have h0 : 0 < s.body.length := by omega
    have : s.body.getD 0 ⟨0, 0⟩ = s.body[0] := List.getD_eq_getElem s.body ⟨0, 0⟩ h0
    rw [this] at htail
    exact htail ▸ List.getElem_mem h0
  have hocc : s.occupies p = true := (occupies_iff s p).mpr hmem
  unfold Snake.move_snake
  simp only [hns]
  rw [if_neg (fun hx => htreat hx.symm),
    if_neg (by simp [hocc] : ¬ (¬ s.occupies p = true))]

/-- Witness for C10: a length-4 snake bent into a square about to step onto
its own tail. -/
theorem C10_witness :
    (Snake.next_step ⟨[⟨5, 5⟩, ⟨5, 6⟩, ⟨6, 6⟩, ⟨6, 5⟩], 4, .Up, none⟩ =
        some ⟨5, 5⟩) ∧
    Snake.move_snake ⟨[⟨5, 5⟩, ⟨5, 6⟩, ⟨6, 6⟩, ⟨6, 5⟩], 4, .Up, none⟩ =
      (⟨[⟨5, 5⟩, ⟨5, 6⟩, ⟨6, 6⟩, ⟨6, 5⟩], 4, .Up, none⟩,
       some "Your snake bit itself!") :=
  ⟨by decide,
   C10_tail_collision_detected ⟨[⟨5, 5⟩, ⟨5, 6⟩, ⟨6, 6⟩, ⟨6, 5⟩], 4, .Up, none⟩
     ⟨5, 5⟩ (by decide) (by decide) (by decide) (by decide) (by decide)⟩

/-- The direction an arrow key stages (`none` for non-arrow keys). -/
def arrow_direction : KeyCode → Option Direction
  | .ArrowUp => some .Up
  | .ArrowRight => some .Right
  | .ArrowDown => some .Down
  | .ArrowLeft => some .Left
  | _ => none

/-- C8: `accept_keyboard_input` never changes the snake, the game-over flag,
the difficulty or the counter; it overwrites the pending next-move exactly
when the event is a key-press of one of the four arrow keys (with the
corresponding direction, last writer wins) and leaves it untouched
otherwise. -/
theorem C8_handle_key_only_stages_input (g : Game) (e : KeyEvent) :
    (g.accept_keyboard_input e).snake = g.snake ∧
    (g.accept_keyboard_input e).game_over = g.game_over ∧
    (g.accept_keyboard_input e).difficulty = g.difficulty ∧
    (g.accept_keyboard_input e).counter = g.counter ∧
    (g.accept_keyboard_input e).next_move =
      (match e.state, arrow_direction e.code with
       | .Down, some d => some d
       | _, _ => g.next_move) := by
  obtain ⟨code, state⟩ := e
  cases state <;> cases code <;>
    simp [Game.accept_keyboard_input, arrow_direction]

/-! ### Shape of `make_treat` and the qualifying tick -/

theorem sample_treat_spec (s : Snake) :
    ∀ (rnds : List Nat) (p : Position) (rest : List Nat),
      sample_treat s rnds = some (p, rest) →
      s.occupies p = false ∧ p.row < GAME_ROWS ∧ p.col < GAME_COLUMNS
  | [], p, rest => by simp [sample_treat]
  | [r], p, rest => by simp [sample_treat]
  | r1 :: r2 :: rest', p, rest => by
    intro h
    unfold sample_treat at h
    by_cases hocc : ¬ Snake.occupies s ⟨r1 % GAME_ROWS, r2 % GAME_COLUMNS⟩ = true
    · rw [if_pos hocc] at h
      obtain ⟨rfl, rfl⟩ : (⟨r1 % GAME_ROWS, r2 % GAME_COLUMNS⟩ : Position) = p ∧
          rest' = rest := by
        have := Option.some.inj h
        exact ⟨congrArg Prod.fst this, congrArg Prod.snd this⟩
      refine ⟨by simpa using hocc, ?_, ?_⟩
      · exact Nat.mod_lt _ (by decide)
      · exact Nat.mod_lt _ (by decide)
    · rw [if_neg hocc] at h
      exact sample_treat_spec s rest' p rest h

theorem make_treat_shape (g : Game) (randoms : List Nat) :
    ∃ t, (g.make_treat randoms).1 = { g with snake := { g.snake with treat := t } } ∧
      (t = g.snake.treat ∨
        (g.snake.treat = none ∧ g.snake.length ≠ MAX_SNAKE_LENGTH ∧
         ∃ p, t = some p ∧ g.snake.occupies p = false ∧
           p.row < GAME_ROWS ∧ p.col < GAME_COLUMNS)) := by
  by_cases hmax : g.snake.is_at_maximum_length = true
  · refine ⟨g.snake.treat, ?_, Or.inl rfl⟩
    unfold Game.make_treat
    rw [if_neg (by simp [hmax])]
  · rcases Option.eq_none_or_eq_some g.snake.treat with ht | ⟨q, ht⟩
    · rcases hs : sample_treat g.snake randoms with _ | pr
      · refine ⟨g.snake.treat, ?_, Or.inl rfl⟩
        unfold Game.make_treat
        rw [if_pos (by simp [hmax])]
        simp only [ht, hs]
        rw [← ht]
      · refine ⟨some pr.1, ?_, Or.inr ⟨ht, ?_, pr.1, rfl, ?_⟩⟩
        · unfold Game.make_treat
          rw [if_pos (by simp [hmax])]
          simp only [ht, hs]
        · intro heq
          exact hmax (by simp [Snake.is_at_maximum_length, heq])
        · exact sample_treat_spec g.snake randoms pr.1 pr.2 (by simpa using hs)
    · refine ⟨g.snake.treat, ?_, Or.inl rfl⟩
      unfold Game.make_treat
      rw [if_pos (by simp [hmax])]
      simp only [ht]
      rw [← ht]

theorem refresh_qualifying (g : Game) (w : Writer) (randoms : List Nat)
    (hq : g.counter % g.difficulty.as_u32 = 0) (hgo : g.game_over = false) :
    g.refresh_frame w randoms = (g.bump_counter).simulation_step w randoms := by
  show (if g.counter % g.difficulty.as_u32 = 0 ∧ g.game_over = false
        then (g.bump_counter).simulation_step w randoms
        else (g.bump_counter, w, randoms)) = _
  rw [if_pos ⟨hq, hgo⟩]

theorem refresh_not_qualifying (g : Game) (w : Writer) (randoms : List Nat)
    (h : ¬ (g.counter % g.difficulty.as_u32 = 0 ∧ g.game_over = false)) :
    g.refresh_frame w randoms = (g.bump_counter, w, randoms) := by
  show (if g.counter % g.difficulty.as_u32 = 0 ∧ g.game_over = false
        then (g.bump_counter).simulation_step w randoms
        else (g.bump_counter, w, randoms)) = _
  rw [if_neg h]

theorem simulation_step_game (g : Game) (w : Writer) (randoms : List Nat) :
    ((g.simulation_step w randoms).1) =
      (let g2 := (g.make_treat randoms).1
       let g3 : Game :=
         match g2.next_move with
         | some direction => { g2 with snake := g2.snake.turn direction }
         | none => g2
       let mv := g3.snake.move_snake
       { g3 with snake := mv.1,
                 game_over := g3.game_over || mv.2.isSome,
                 next_move := none }) := by
  unfold Game.simulation_step
  cases hmv : ((match ((g.make_treat randoms).1).next_move with
      | some direction =>
          { (g.make_treat randoms).1 with
            snake := ((g.make_treat randoms).1).snake.turn direction }
      | none => (g.make_treat randoms).1) : Game).snake.move_snake with
  | mk s' e =>
    cases e with
    | none => simp [hmv]
    | some msg => simp [hmv]

/-- C5: a 180°-reversing turn request leaves the snake completely unchanged,
while any non-reversing request (same direction or perpendicular) replaces
the direction; consequently a snake moving Right with pending Left still
moves Right after the next qualifying tick, while a pending Up is applied. -/
theorem C5_reversal_is_noop :
    (∀ (s : Snake) (d : Direction),
        Direction.is_reversal s.direction d = true → s.turn d = s) ∧
    (∀ (s : Snake) (d : Direction),
        Direction.is_reversal s.direction d = false →
          s.turn d = { s with direction := d }) ∧
    (∀ (g : Game) (w : Writer) (randoms : List Nat),
        g.counter % g.difficulty.as_u32 = 0 → g.game_over = false →
        g.snake.direction = .Right → g.next_move = some .Left →
        ((g.refresh_frame w randoms).1).snake.direction = .Right) ∧
    (∀ (g : Game) (w : Writer) (randoms : List Nat),
        g.counter % g.difficulty.as_u32 = 0 → g.game_over = false →
        g.snake.direction = .Right → g.next_move = some .Up →
        ((g.refresh_frame w randoms).1).snake.direction = .Up) := by
  refine ⟨turn_of_reversal, turn_of_not_reversal, ?_, ?_⟩
  all_goals
    intro g w randoms hq hgo hdir hnm
    rw [refresh_qualifying g w randoms hq hgo, simulation_step_game]
    obtain ⟨t, heq, _⟩ := make_treat_shape g.bump_counter randoms
    simp only [Game.bump_counter] at heq ⊢
    rw [hnm] at heq
    simp only [heq, hnm]
    rw [move_snake_fst_direction, turn_direction]
    simp [hdir, Direction.is_reversal]

/-- Witness for C5: concrete games moving Right with pending Left (ignored)
and pending Up (applied) at a qualifying tick. -/
theorem C5_witness :
    ((Game.refresh_frame ⟨.Hard, 0, Snake.new, false, some .Left⟩ writer0
        [0, 0]).1).snake.direction = .Right ∧
    ((Game.refresh_frame ⟨.Hard, 0, Snake.new, false, some .Up⟩ writer0
        [0, 0]).1).snake.direction = .Up :=
  ⟨C5_reversal_is_noop.2.2.1 ⟨.Hard, 0, Snake.new, false, some .Left⟩ writer0 [0, 0]
     (by decide) rfl (by decide) rfl,
   C5_reversal_is_noop.2.2.2 ⟨.Hard, 0, Snake.new, false, some .Up⟩ writer0 [0, 0]
     (by decide) rfl (by decide) rfl⟩

/-! ### Boundary termination and the terminal state (claim C4) -/

theorem next_step_right_edge (s : Snake) (hd : s.direction = .Right)
    (hc : s.head.col = GAME_COLUMNS - 1) : s.next_step = none := by
  unfold Snake.next_step
  rw [hd]
  dsimp only
  rw [if_pos hc]

theorem move_snake_bounds (s : Snake) (hns : s.next_step = none) :
    s.move_snake = (s, some "Bounds reached!") := by
  unfold Snake.move_snake
  simp only [hns]

theorem accept_fields (g : Game) (e : KeyEvent) :
    (g.accept_keyboard_input e).snake = g.snake ∧
    (g.accept_keyboard_input e).game_over = g.game_over := by
  obtain ⟨c, st⟩ := e
  cases st <;> cases c <;> simp [Game.accept_keyboard_input]

theorem step_game_over_frozen (s : SysState) (e : Event)
    (h : s.game.game_over = true) :
    (s.step e).game.game_over = true ∧ (s.step e).game.snake = s.game.snake ∧
    (s.step e).writer = s.writer := by
  cases e with
  | tick rnd =>
    have hng : ¬ (s.game.counter % s.game.difficulty.as_u32 = 0 ∧
        s.game.game_over = false) := by simp [h]
    simp [SysState.step, refresh_not_qualifying s.game s.writer rnd hng,
      Game.bump_counter, h]
  | key e =>
    have hk := accept_fields s.game e
    exact ⟨hk.2.trans h, hk.1, rfl⟩

theorem run_game_over_frozen (es : List Event) : ∀ (s : SysState),
    s.game.game_over = true →
    (s.run es).game.game_over = true ∧
    (s.run es).game.snake = s.game.snake ∧
    (s.run es).writer = s.writer := by
  induction es with
  | nil =>
    intro s h
    exact ⟨h, rfl, rfl⟩
  | cons e rest ih =>
    intro s h
    have h1 := step_game_over_frozen s e h
    have h2 := ih (s.step e) h1.1
    refine ⟨?_, ?_, ?_⟩
    · simpa [SysState.run, List.foldl_cons] using h2.1
    · have := h2.2.1.trans h1.2.1
      simpa [SysState.run, List.foldl_cons] using this
    · have := h2.2.2.trans h1.2.2
      simpa [SysState.run, List.foldl_cons] using this

theorem boundary_tick_sets_game_over (g : Game) (w : Writer) (randoms : List Nat)
    (hq : g.counter % g.difficulty.as_u32 = 0) (hgo : g.game_over = false)
    (hdir : g.snake.direction = .Right)
    (hcol : g.snake.head.col = GAME_COLUMNS - 1)
    (hnm : g.next_move = none ∨ g.next_move = some .Right ∨
      g.next_move = some .Left) :
    ((g.refresh_frame w randoms).1).game_over = true := by
  rw [refresh_qualifying g w randoms hq hgo, simulation_step_game]
  obtain ⟨t, heq, _⟩ := make_treat_shape g.bump_counter randoms
  simp only [Game.bump_counter] at heq ⊢
  rcases hnm with hnm | hnm | hnm
  · rw [hnm] at heq
    simp only [heq, hnm]
    have hmv := move_snake_bounds { g.snake with treat := t }
      (next_step_right_edge { g.snake with treat := t } hdir hcol)
    simp [hmv]
  · rw [hnm] at heq
    simp only [heq, hnm]
    have hturn : Snake.turn { g.snake with treat := t } Direction.Right =
        { g.snake with treat := t, direction := .Right } :=
      turn_of_not_reversal _ _ (by simp [hdir, Direction.is_reversal])
    rw [hturn]
    have hmv := move_snake_bounds { g.snake with treat := t, direction := .Right }
      (next_step_right_edge { g.snake with treat := t, direction := .Right }
        rfl hcol)
    simp [hmv]
  · rw [hnm] at heq
    simp only [heq, hnm]
    have hturn : Snake.turn { g.snake with treat := t } Direction.Left =
        { g.snake with treat := t } :=
      turn_of_reversal _ _ (by simp [hdir, Direction.is_reversal])
    rw [hturn]
    have hmv := move_snake_bounds { g.snake with treat := t }
      (next_step_right_edge { g.snake with treat := t } hdir hcol)
    simp [hmv]

/-- C4 (counterexample): a snake whose head is at the rightmost play-field
column (77) with current direction Right does NOT always die on the next
qualifying tick: a pending perpendicular direction change (here Up) is
applied first and steers the snake away from the wall, so `game_over` stays
false. -/
theorem C4_counterexample :
    (let gX : Game :=
      ⟨.Hard, 0, ⟨List.replicate 100 ⟨11, 77⟩, 1, .Right, none⟩, false, some .Up⟩
     gX.snake.head.col = GAME_COLUMNS - 1 ∧ gX.snake.direction = .Right ∧
     gX.game_over = false ∧ gX.counter % gX.difficulty.as_u32 = 0 ∧
     ((gX.refresh_frame writer0 [0, 0]).1).game_over = false) := by
  decide

/-- C4 (amended): a snake whose head is at the rightmost play-field column
(77) with current direction Right dies on the next qualifying tick provided
no pending perpendicular direction change steers it away (the pending move
is absent, Right, or the ignored reversal Left); and once `game_over` is
set, it never becomes false again and no subsequent tick or key event
mutates the snake or writes to the display grid. -/
theorem C4_boundary_termination :
    (∀ (g : Game) (w : Writer) (randoms : List Nat),
        g.counter % g.difficulty.as_u32 = 0 → g.game_over = false →
        g.snake.direction = .Right → g.snake.head.col = GAME_COLUMNS - 1 →
        (g.next_move = none ∨ g.next_move = some .Right ∨
          g.next_move = some .Left) →
        ((g.refresh_frame w randoms).1).game_over = true) ∧
    (∀ (s : SysState) (es : List Event), s.game.game_over = true →
        (s.run es).game.game_over = true ∧
        (s.run es).game.snake = s.game.snake ∧
        (s.run es).writer = s.writer) :=
  ⟨boundary_tick_sets_game_over, fun s es h => run_game_over_frozen es s h⟩

/-- Witness for C4: a concrete snake at column 77 moving Right with no
pending input dies on a qualifying tick, and a game-over state stays frozen
over a further tick and key press. -/
theorem C4_witness :
    ((Game.refresh_frame
        ⟨.Hard, 0, ⟨List.replicate 100 ⟨11, 77⟩, 1, .Right, none⟩, false, none⟩
        writer0 [0, 0]).1).game_over = true ∧
    ((SysState.run
        ⟨⟨.Hard, 7, ⟨List.replicate 100 ⟨11, 77⟩, 1, .Right, none⟩, true, none⟩,
          writer0⟩
        [.tick [0, 0], .key ⟨.ArrowUp, .Down⟩]).game.game_over = true) :=
  ⟨C4_boundary_termination.1
     ⟨.Hard, 0, ⟨List.replicate 100 ⟨11, 77⟩, 1, .Right, none⟩, false, none⟩
     writer0 [0, 0] (by decide) rfl rfl (by decide) (Or.inl rfl),
   (C4_boundary_termination.2
     ⟨⟨.Hard, 7, ⟨List.replicate 100 ⟨11, 77⟩, 1, .Right, none⟩, true, none⟩,
       writer0⟩
     [.tick [0, 0], .key ⟨.ArrowUp, .Down⟩] rfl).1⟩

/-! ### Difficulty gating (claim C3) -/

/-- The branch condition of `refresh_frame`: whether this tick performs a
simulation step. -/
def Game.sim_step_taken (g : Game) : Bool :=
  decide (g.counter % g.difficulty.as_u32 = 0) && !g.game_over

theorem sim_step_taken_true (g : Game)
    (h1 : g.counter % g.difficulty.as_u32 = 0) (h2 : g.game_over = false) :
    g.sim_step_taken = true := by
  simp [Game.sim_step_taken, h1, h2]

theorem sim_step_taken_false_of_mod (g : Game)
    (h : g.counter % g.difficulty.as_u32 ≠ 0) : g.sim_step_taken = false := by
  simp [Game.sim_step_taken, h]

theorem refresh_not_taken (g : Game) (w : Writer) (randoms : List Nat)
    (h : g.sim_step_taken = false) :
    g.refresh_frame w randoms = (g.bump_counter, w, randoms) := by
  apply refresh_not_qualifying
  intro hc
  rw [sim_step_taken_true g hc.1 hc.2] at h
  simp at h

theorem simulation_step_counter (g : Game) (w : Writer) (randoms : List Nat) :
    ((g.simulation_step w randoms).1).counter = g.counter ∧
    ((g.simulation_step w randoms).1).difficulty = g.difficulty := by
  rw [simulation_step_game]
  obtain ⟨t, heq, _⟩ := make_treat_shape g randoms
  cases hnm : g.next_move with
  | none => simp [heq, hnm]
  | some d => simp [heq, hnm]

theorem refresh_counter (g : Game) (w : Writer) (randoms : List Nat) :
    ((g.refresh_frame w randoms).1).counter = (g.counter + 1) % 4294967296 ∧
    ((g.refresh_frame w randoms).1).difficulty = g.difficulty := by
  by_cases hcond : g.counter % g.difficulty.as_u32 = 0 ∧ g.game_over = false
  · rw [refresh_qualifying g w randoms hcond.1 hcond.2]
    have h := simulation_step_counter g.bump_counter w randoms
    exact ⟨h.1, h.2⟩
  · rw [refresh_not_qualifying g w randoms hcond]
    exact ⟨rfl, rfl⟩

/-- The number of ticks, across a window of tick calls (each carrying its
random values), on which the simulation-step branch is taken. -/
def count_sim_steps : List (List Nat) → Game → Writer → Nat
  | [], _, _ => 0
  | randoms :: rest, g, w =>
      (if g.sim_step_taken then 1 else 0) +
        count_sim_steps rest ((g.refresh_frame w randoms).1)
          ((g.refresh_frame w randoms).2.1)

theorem count_zero : ∀ (rnds : List (List Nat)) (g : Game) (w : Writer),
    g.difficulty = .Medium →
    g.counter + rnds.length ≤ 4294967296 →
    (∀ i, i < rnds.length → (g.counter + i) % 5 ≠ 0) →
    count_sim_steps rnds g w = 0
  | [], g, w => by
    intro _ _ _
    rfl
  | randoms :: rest, g, w => by
    intro hM hbound hmod
    have h0 : g.counter % 5 ≠ 0 := by
      have := hmod 0 (by simp)
      simpa using this
    have htaken : g.sim_step_taken = false :=
      sim_step_taken_false_of_mod g (by rw [hM]; exact h0)
    rw [count_sim_steps, htaken, refresh_not_taken g w randoms htaken]
    simp only [Bool.false_eq_true, if_false, Nat.zero_add]
    simp only [List.length_cons] at hbound hmod
    apply count_zero rest g.bump_counter w
    · exact hM
    · show (g.counter + 1) % 4294967296 + rest.length ≤ 4294967296
      omega
    · intro i hi
      show ((g.counter + 1) % 4294967296 + i) % 5 ≠ 0
      have hcm : (g.counter + 1) % 4294967296 = g.counter + 1 := by omega
      rw [hcm]
      have hprev := hmod (i + 1) (by omega)
      have harith : g.counter + 1 + i = g.counter + (i + 1) := by omega
      rw [harith]
      exact hprev

theorem count_one : ∀ (rnds : List (List Nat)) (i0 : Nat) (g : Game) (w : Writer),
    g.difficulty = .Medium → g.game_over = false →
    g.counter + rnds.length ≤ 4294967296 →
    i0 < rnds.length → (g.counter + i0) % 5 = 0 →
    (∀ i, i < rnds.length → i ≠ i0 → (g.counter + i) % 5 ≠ 0) →
    count_sim_steps rnds g w = 1
  | [], i0, g, w => by
    intro _ _ _ hi0 _ _
    simp at hi0
  | randoms :: rest, i0, g, w => by
    intro hM hgo hbound hi0 hq hothers
    simp only [List.length_cons] at hbound hi0
    rcases Nat.eq_zero_or_pos i0 with h0 | hpos
    · -- the head tick qualifies; the remaining ticks do not
      subst h0
      have hq0 : g.counter % 5 = 0 := by simpa using hq
      have htaken : g.sim_step_taken = true :=
        sim_step_taken_true g (by rw [hM]; exact hq0) hgo
      rw [count_sim_steps, htaken]
      simp only [if_true]
      have hrc := refresh_counter g w randoms
      have hz : count_sim_steps rest ((g.refresh_frame w randoms).1)
          ((g.refresh_frame w randoms).2.1) = 0 := by
        apply count_zero
        · rw [hrc.2, hM]
        · rw [hrc.1]
          omega
        · intro i hi
          rw [hrc.1]
          have hcm : (g.counter + 1) % 4294967296 = g.counter + 1 := by omega
          rw [hcm]
          have hprev := hothers (i + 1) (by simp; omega) (by omega)
          have harith : g.counter + 1 + i = g.counter + (i + 1) := by omega
          rw [harith]
          exact hprev
      omega
    · -- the head tick does not qualify yet
      have h0 : g.counter % 5 ≠ 0 := by
        have := hothers 0 (by simp) (by omega)
        simpa using this
      have htaken : g.sim_step_taken = false :=
        sim_step_taken_false_of_mod g (by rw [hM]; exact h0)
      rw [count_sim_steps, htaken, refresh_not_taken g w randoms htaken]
      simp only [Bool.false_eq_true, if_false, Nat.zero_add]
      have hc1 : g.counter + 1 < 4294967296 := by omega
      have hbc : g.bump_counter.counter = g.counter + 1 := by
        show (g.counter + 1) % 4294967296 = g.counter + 1
        omega
      apply count_one rest (i0 - 1) g.bump_counter w
      · exact hM
      · exact hgo
      · rw [hbc]; omega
      · omega
      · rw [hbc]
        have : g.counter + 1 + (i0 - 1) = g.counter + i0 := by omega
        rw [this]
        exact hq
      · intro i hi hne
        rw [hbc]
        have := hothers (i + 1) (by simp; omega) (by omega)
        have harith : g.counter + 1 + i = g.counter + (i + 1) := by omega
        rw [harith]
        exact this

/-- C3 (counterexample): with the u32 tick counter at its maximum value
4294967295 (which is divisible by 5) in a Medium-difficulty running game,
the counter wraps to 0 — also divisible by 5 — on the next tick, so TWO
simulation steps occur within 5 consecutive tick calls, not exactly one. -/
theorem C3_counterexample :
    (let gW : Game :=
      ⟨.Medium, 4294967295, Snake.new, false, none⟩
     gW.game_over = false ∧ gW.difficulty = .Medium ∧
     count_sim_steps [[0, 0], [0, 0], [0, 0], [0, 0], [0, 0]] gW writer0 = 2) := by
  decide

/-- C3 (amended): a non-game-over tick performs the simulation step exactly
when the pre-increment counter is divisible by the difficulty divisor —
otherwise it mutates only the counter (incremented mod 2^32) — and with
Medium difficulty exactly one simulation step occurs per 5 consecutive tick
calls provided the five pre-increment counter values do not wrap around
2^32 (counter + 5 ≤ 2^32); at the wrap, two steps can occur in a window. -/
theorem C3_difficulty_gating :
    (∀ (g : Game) (w : Writer) (randoms : List Nat),
        g.game_over = false → g.counter % g.difficulty.as_u32 ≠ 0 →
        g.refresh_frame w randoms =
          ({ g with counter := (g.counter + 1) % 4294967296 }, w, randoms)) ∧
    (∀ (g : Game) (w : Writer) (randoms : List Nat),
        g.game_over = false → g.counter % g.difficulty.as_u32 = 0 →
        g.refresh_frame w randoms = (g.bump_counter).simulation_step w randoms) ∧
    (∀ (g : Game) (w : Writer) (rnds : List (List Nat)),
        g.difficulty = .Medium → g.game_over = false →
        rnds.length = 5 → g.counter + 5 ≤ 4294967296 →
        count_sim_steps rnds g w = 1) := by
  refine ⟨?_, ?_, ?_⟩
  · intro g w randoms _ hmod
    exact refresh_not_qualifying g w randoms (fun hc => hmod hc.1)
  · intro g w randoms hgo hmod
    exact refresh_qualifying g w randoms hmod hgo
  · intro g w rnds hM hgo hlen hbound
    apply count_one rnds ((5 - g.counter % 5) % 5) g w hM hgo
    · omega
    · omega
    · omega
    · intro i hi hne
      omega

/-- Witness for C3: a fresh Medium game sees exactly one simulation step in
its first 5 ticks, and concrete qualifying/non-qualifying ticks behave as
characterized. -/
theorem C3_witness :
    count_sim_steps [[0, 0], [0, 0], [0, 0], [0, 0], [0, 0]]
      ⟨.Medium, 0, Snake.new, false, none⟩ writer0 = 1 ∧
    Game.refresh_frame ⟨.Medium, 1, Snake.new, false, none⟩ writer0 [0, 0] =
      (⟨.Medium, 2, Snake.new, false, none⟩, writer0, [0, 0]) :=
  ⟨C3_difficulty_gating.2.2 ⟨.Medium, 0, Snake.new, false, none⟩ writer0
     [[0, 0], [0, 0], [0, 0], [0, 0], [0, 0]] rfl rfl rfl (by decide),
   C3_difficulty_gating.1 ⟨.Medium, 1, Snake.new, false, none⟩ writer0 [0, 0]
     rfl (by decide)⟩

/-! ### Reachable-state invariants (claims C2 and C7) -/

theorem take_set_of_le {α : Type} (l : List α) (i : Nat) (a : α) (n : Nat)
    (h : n ≤ i) : (l.set i a).take n = l.take n := by
  apply List.ext_getElem
  · simp
  · intro j h1 h2
    have hj : j < n := by
      simp only [List.length_take, List.length_set] at h1
      omega
    simp only [List.getElem_take, List.getElem_set]
    rw [if_neg (by omega)]

theorem body_length (s : Snake) (h : s.length ≤ s.positions.length) :
    s.body.length = s.length := by
  simp [Snake.body, h]

theorem head_mem_body (s : Snake) (h1 : 1 ≤ s.length)
    (h2 : s.length ≤ s.positions.length) : s.head ∈ s.body := by
  have hlen : s.body.length = s.length := body_length s h2
  have h0 : s.length - 1 < s.body.length := by omega
  have hh : s.head = s.body[s.length - 1] :=
    List.getD_eq_getElem s.body ⟨0, 0⟩ h0
  rw [hh]
  exact List.getElem_mem h0

/-- The treat-related part of the snake invariant: a placed treat is inside
the play-field, off the body, and only exists below maximum length. -/
def Snake.treat_inv (s : Snake) : Prop :=
  match s.treat with
  | none => True
  | some p => p.row < GAME_ROWS ∧ p.col < GAME_COLUMNS ∧ p ∉ s.body ∧
      s.length < MAX_SNAKE_LENGTH

instance treat_inv_decidable (s : Snake) : Decidable s.treat_inv := by
  unfold Snake.treat_inv
  cases s.treat with
  | none => exact inferInstance
  | some p => exact inferInstance

/-- The full snake invariant maintained by the game. -/
def Snake.full_inv (s : Snake) : Prop :=
  1 ≤ s.length ∧ s.length ≤ MAX_SNAKE_LENGTH ∧
  s.positions.length = MAX_SNAKE_LENGTH ∧
  (∀ p ∈ s.body, p.row < GAME_ROWS ∧ p.col < GAME_COLUMNS) ∧
  s.body.Nodup ∧ s.treat_inv

theorem next_step_in_field (s : Snake) (p : Position) (hinv : s.full_inv)
    (hns : s.next_step = some p) :
    p.row < GAME_ROWS ∧ p.col < GAME_COLUMNS := by
  obtain ⟨h1, h2, h3, hbounds, _, _⟩ := hinv
  have hhead := hbounds s.head (head_mem_body s h1 (by omega))
  have hrow : s.head.row < 23 := by
    have := hhead.1
    simpa only [GAME_ROWS] using this
  have hcol : s.head.col < 78 := by
    have := hhead.2
    simpa only [GAME_COLUMNS] using this
  simp only [GAME_ROWS, GAME_COLUMNS]
  unfold Snake.next_step at hns
  cases hd : s.direction
  case Up =>
    rw [hd] at hns
    dsimp only at hns
    by_cases h0 : s.head.row = 0
    · rw [if_pos h0] at hns
      cases hns
    · rw [if_neg h0] at hns
      cases Option.some.inj hns
      refine ⟨?_, ?_⟩ <;> (dsimp only; omega)
  case Down =>
    rw [hd] at hns
    dsimp only at hns
    by_cases h0 : s.head.row = GAME_ROWS - 1
    · rw [if_pos h0] at hns
      cases hns
    · rw [if_neg h0] at hns
      simp only [GAME_ROWS] at h0
      cases Option.some.inj hns
      refine ⟨?_, ?_⟩ <;> (dsimp only; omega)
  case Left =>
    rw [hd] at hns
    dsimp only at hns
    by_cases h0 : s.head.col = 0
    · rw [if_pos h0] at hns
      cases hns
    · rw [if_neg h0] at hns
      cases Option.some.inj hns
      refine ⟨?_, ?_⟩ <;> (dsimp only; omega)
  case Right =>
    rw [hd] at hns
    dsimp only at hns
    by_cases h0 : s.head.col = GAME_COLUMNS - 1
    · rw [if_pos h0] at hns
      cases hns
    · rw [if_neg h0] at hns
      simp only [GAME_COLUMNS] at h0
      cases Option.some.inj hns
      refine ⟨?_, ?_⟩ <;> (dsimp only; omega)

theorem grow_success (s : Snake) (p : Position)
    (hmax : s.is_at_maximum_length = false) (hns : s.next_step = some p)
    (hocc : s.occupies p = false) :
    s.grow = ({ s with
      positions := s.positions.set s.length p,
      length := s.length + 1,
      treat := if s.treat = some p then none else s.treat }, none) := by
  unfold Snake.grow
  rw [if_neg (by simp [hmax])]
  simp only [hns]
  rw [if_pos (by simp [hocc])]
  split
  · rfl
  · rfl

theorem take_set_body (ps : List Position) (n : Nat) (p : Position)
    (h : n < ps.length) :
    (ps.set n p).take (n + 1) = ps.take n ++ [p] := by
  rw [List.take_succ, take_set_of_le ps n p n (le_refl n)]
  congr 1
  rw [List.getElem?_set_self (by omega)]
  rfl

theorem set_append_at {α : Type} (A B : List α) (n : Nat) (a : α)
    (h : A.length = n) : (A ++ B).set n a = A ++ B.set 0 a := by
  subst h
  rw [List.set_append_right _ _ (le_refl _), Nat.sub_self]

theorem take_append_at {α : Type} (A B : List α) (n k : Nat)
    (h : A.length = n) : (A ++ B).take (n + k) = A ++ B.take k := by
  subst h
  rw [List.take_append]

theorem shift_foldl (ps : List Position) : ∀ (n : Nat), n < ps.length →
    (List.range n).foldl (fun ps i => ps.set i (ps.getD (i + 1) ⟨0, 0⟩)) ps =
      (ps.drop 1).take n ++ ps.drop n := by
  intro n
  induction n with
  | zero =>
    intro _
    simp
  | succ m ih =>
    intro h
    rw [List.range_succ, List.foldl_append, ih (by omega)]
    simp only [List.foldl_cons, List.foldl_nil]
    have hA : ((ps.drop 1).take m).length = m := by
      simp only [List.length_take, List.length_drop]
      omega
    have hlen2 : ((ps.drop 1).take m ++ ps.drop m).length = ps.length := by
      simp only [List.length_append, List.length_take, List.length_drop]
      omega
    have hgot : ((ps.drop 1).take m ++ ps.drop m).getD (m + 1) ⟨0, 0⟩ =
        ps[m + 1] := by
      rw [List.getD_eq_getElem _ _ (by omega)]
      rw [List.getElem_append_right (by omega)]
      rw [List.getElem_drop]
      congr 1
      omega
    rw [hgot]
    rw [set_append_at _ _ _ _ hA,
      List.drop_eq_getElem_cons (by omega : m < ps.length), List.set_cons_zero]
    have htk : (ps.drop 1).take (m + 1) = (ps.drop 1).take m ++ [ps[m + 1]] := by
      rw [List.take_succ]
      congr 1
      rw [List.getElem?_drop]
      have h1m : 1 + m = m + 1 := by omega
      rw [h1m, List.getElem?_eq_getElem h]
      rfl
    rw [htk, List.append_cons]

theorem move_success (s : Snake) (p : Position) (hns : s.next_step = some p)
    (ht : ¬ (some p = s.treat)) (hocc : s.occupies p = false)
    (h1 : 1 ≤ s.length) (hcap : s.length ≤ s.positions.length) :
    s.move_snake = ({ s with positions :=
      (s.positions.drop 1).take (s.length - 1) ++
        p :: s.positions.drop s.length }, none) := by
  unfold Snake.move_snake
  simp only [hns]
  rw [if_neg ht, if_pos (by simp [hocc])]
  have hsh := shift_foldl s.positions (s.length - 1) (by omega)
  rw [hsh]
  have hA : ((s.positions.drop 1).take (s.length - 1)).length = s.length - 1 := by
    simp only [List.length_take, List.length_drop]
    omega
  rw [set_append_at _ _ _ _ hA,
    List.drop_eq_getElem_cons (by omega : s.length - 1 < s.positions.length),
    List.set_cons_zero]
  have hll : s.length - 1 + 1 = s.length := by omega
  rw [hll]

theorem take_shift_body (ps : List Position) (m : Nat) (p : Position)
    (hm : m < ps.length) :
    ((ps.drop 1).take m ++ p :: ps.drop (m + 1)).take (m + 1) =
      (ps.drop 1).take m ++ [p] := by
  have hA : ((ps.drop 1).take m).length = m := by
    simp only [List.length_take, List.length_drop]
    omega
  have := take_append_at ((ps.drop 1).take m) (p :: ps.drop (m + 1)) m 1 hA
  rw [this]
  rfl

theorem turn_body (s : Snake) (d : Direction) : (s.turn d).body = s.body := by
  unfold Snake.body
  rw [(turn_fields s d).1, (turn_fields s d).2.1]

theorem turn_inv (s : Snake) (d : Direction) (h : s.full_inv) :
    (s.turn d).full_inv := by
  obtain ⟨h1, h2, h3, hb, hnd, htr⟩ := h
  obtain ⟨hp, hl, ht⟩ := turn_fields s d
  refine ⟨?_, ?_, ?_, ?_, ?_, ?_⟩
  · rw [hl]; exact h1
  · rw [hl]; exact h2
  · rw [hp]; exact h3
  · rw [turn_body]; exact hb
  · rw [turn_body]; exact hnd
  · unfold Snake.treat_inv at htr ⊢
    rw [ht, turn_body, hl]
    exact htr

theorem not_mem_of_occupies_false (s : Snake) (p : Position)
    (h : s.occupies p = false) : p ∉ s.body := by
  intro hm
  rw [(occupies_iff s p).mpr hm] at h
  cases h

theorem treat_some_length_lt (s : Snake) (h : s.full_inv) (q : Position)
    (hq : s.treat = some q) : s.length < MAX_SNAKE_LENGTH := by
  obtain ⟨_, _, _, _, _, htr⟩ := h
  unfold Snake.treat_inv at htr
  rw [hq] at htr
  exact htr.2.2.2

theorem move_route_grow (s : Snake) (p : Position) (hns : s.next_step = some p)
    (htq : some p = s.treat) : s.move_snake = s.grow := by
  unfold Snake.move_snake
  simp only [hns]
  rw [if_pos htq]

theorem grow_inv_of_treat (s : Snake) (p : Position) (hinv : s.full_inv)
    (hmax : s.is_at_maximum_length = false) (hns : s.next_step = some p)
    (hocc : s.occupies p = false)
    (htreat : s.treat = none ∨ s.treat = some p) :
    (s.grow.1).full_inv := by
  obtain ⟨h1, h2, h3, hb, hnd, htr⟩ := hinv
  have hlenmax : s.length < MAX_SNAKE_LENGTH := by
    have hne : ¬ (s.length = MAX_SNAKE_LENGTH) := by
      intro hx
      simp [Snake.is_at_maximum_length, hx] at hmax
    omega
  have hpin := next_step_in_field s p ⟨h1, h2, h3, hb, hnd, htr⟩ hns
  have hpnotmem : p ∉ s.body := not_mem_of_occupies_false s p hocc
  rw [grow_success s p hmax hns hocc]
  have hbody : (s.positions.set s.length p).take (s.length + 1) =
      s.body ++ [p] :=
    take_set_body s.positions s.length p (by omega)
  refine ⟨?_, ?_, ?_, ?_, ?_, ?_⟩
  · show 1 ≤ s.length + 1
    omega
  · show s.length + 1 ≤ MAX_SNAKE_LENGTH
    omega
  · show (s.positions.set s.length p).length = MAX_SNAKE_LENGTH
    rw [List.length_set]
    exact h3
  · show ∀ q ∈ (s.positions.set s.length p).take (s.length + 1),
      q.row < GAME_ROWS ∧ q.col < GAME_COLUMNS
    rw [hbody]
    intro q hq
    rcases List.mem_append.mp hq with hq | hq
    · exact hb q hq
    · rw [List.mem_singleton.mp hq]
      exact hpin
  · show ((s.positions.set s.length p).take (s.length + 1)).Nodup
    rw [hbody]
    simp only [List.nodup_append, List.nodup_cons, List.not_mem_nil,
      not_false_iff, List.nodup_nil, and_true, true_and]
    refine ⟨hnd, ?_⟩
    intro q hq hq1
    rw [List.mem_singleton.mp hq1] at hq
    exact hpnotmem hq
  · rcases htreat with ht0 | ht0
    · show Snake.treat_inv _
      unfold Snake.treat_inv
      have hite : (if s.treat = some p then none else s.treat) =
          (none : Option Position) := by
        rw [ht0]
        split <;> rfl
      rw [hite]
      trivial
    · show Snake.treat_inv _
      unfold Snake.treat_inv
      rw [ht0]
      simp

theorem move_snake_inv (s : Snake) (hinv : s.full_inv) :
    (s.move_snake.1).full_inv := by
  cases hns : s.next_step with
  | none =>
    rw [move_snake_bounds s hns]
    exact hinv
  | some p =>
    by_cases htq : some p = s.treat
    · rw [move_route_grow s p hns htq]
      by_cases hmax : s.is_at_maximum_length = true
      · have hfix : s.grow.1 = s := by
          unfold Snake.grow
          rw [if_pos hmax]
        rw [hfix]
        exact hinv
      · by_cases hocc : s.occupies p = true
        · have hfix : s.grow.1 = s := by
            unfold Snake.grow
            rw [if_neg hmax]
            simp only [hns]
            rw [if_neg (by simp [hocc])]
          rw [hfix]
          exact hinv
        · exact grow_inv_of_treat s p hinv (by simpa using hmax) hns
            (by simpa using hocc) (Or.inr htq.symm)
    · by_cases hocc : s.occupies p = true
      · have hfix : s.move_snake.1 = s := by
          unfold Snake.move_snake
          simp only [hns]
          rw [if_neg htq, if_neg (by simp [hocc])]
        rw [hfix]
        exact hinv
      · obtain ⟨h1, h2, h3, hb, hnd, htr⟩ := hinv
        have hpin := next_step_in_field s p ⟨h1, h2, h3, hb, hnd, htr⟩ hns
        have hocc' : s.occupies p = false := by simpa using hocc
        have hpnotmem : p ∉ s.body := not_mem_of_occupies_false s p hocc'
        rw [move_success s p hns htq hocc' h1 (by omega)]
        have hm : s.length - 1 < s.positions.length := by omega
        have hbody := take_shift_body s.positions (s.length - 1) p hm
        have hll : s.length - 1 + 1 = s.length := by omega
        rw [hll] at hbody
        have hAeq : (s.positions.drop 1).take (s.length - 1) = s.body.drop 1 := by
          show _ = (s.positions.take s.length).drop 1
          rw [List.drop_take]
        refine ⟨h1, h2, ?_, ?_, ?_, ?_⟩
        · show ((s.positions.drop 1).take (s.length - 1) ++
            p :: s.positions.drop s.length).length = MAX_SNAKE_LENGTH
          simp only [List.length_append, List.length_take, List.length_drop,
            List.length_cons]
          omega
        · show ∀ q ∈ ((s.positions.drop 1).take (s.length - 1) ++
              p :: s.positions.drop s.length).take s.length,
            q.row < GAME_ROWS ∧ q.col < GAME_COLUMNS
          rw [hbody, hAeq]
          intro q hq
          rcases List.mem_append.mp hq with hq | hq
          · exact hb q (List.mem_of_mem_drop hq)
          · rw [List.mem_singleton.mp hq]
            exact hpin
        · show (((s.positions.drop 1).take (s.length - 1) ++
              p :: s.positions.drop s.length).take s.length).Nodup
          rw [hbody, hAeq]
          simp only [List.nodup_append, List.nodup_cons, List.not_mem_nil,
            not_false_iff, List.nodup_nil, and_true, true_and]
          refine ⟨hnd.sublist (List.drop_sublist 1 s.body), ?_⟩
          intro q hq hq1
          rw [List.mem_singleton.mp hq1] at hq
          exact hpnotmem (List.mem_of_mem_drop hq)
        · show Snake.treat_inv _
          unfold Snake.treat_inv at htr ⊢
          cases hto : s.treat with
          | none => trivial
          | some q =>
            rw [hto] at htr
            obtain ⟨hqr, hqc, hqn, hql⟩ := htr
            refine ⟨hqr, hqc, ?_, hql⟩
            show q ∉ ((s.positions.drop 1).take (s.length - 1) ++
              p :: s.positions.drop s.length).take s.length
            rw [hbody, hAeq]
            intro hq
            rcases List.mem_append.mp hq with hq | hq
            · exact hqn (List.mem_of_mem_drop hq)
            · apply htq
              rw [hto, List.mem_singleton.mp hq]

theorem make_treat_inv (g : Game) (randoms : List Nat)
    (h : g.snake.full_inv) : ((g.make_treat randoms).1).snake.full_inv := by
  obtain ⟨t, heq, ht⟩ := make_treat_shape g randoms
  rw [heq]
  rcases ht with ht | ⟨htn, hlen, p, htp, hocc, hrow, hcol⟩
  · rw [ht]
    exact h
  · subst htp
    obtain ⟨h1, h2, h3, hb, hnd, htr⟩ := h
    refine ⟨h1, h2, h3, hb, hnd, ?_⟩
    show Snake.treat_inv _
    unfold Snake.treat_inv
    refine ⟨hrow, hcol, ?_, ?_⟩
    · exact not_mem_of_occupies_false g.snake p hocc
    · show g.snake.length < MAX_SNAKE_LENGTH
      omega

theorem simulation_step_snake (g : Game) (w : Writer) (randoms : List Nat) :
    ((g.simulation_step w randoms).1).snake =
      ((match g.next_move with
        | some d => Snake.turn ((g.make_treat randoms).1).snake d
        | none => ((g.make_treat randoms).1).snake).move_snake).1 := by
  rw [simulation_step_game]
  obtain ⟨t, heq, _⟩ := make_treat_shape g randoms
  cases hnm : g.next_move with
  | none => simp [heq, hnm]
  | some d => simp [heq, hnm]

theorem refresh_frame_inv (g : Game) (w : Writer) (randoms : List Nat)
    (h : g.snake.full_inv) : ((g.refresh_frame w randoms).1).snake.full_inv := by
  by_cases hcond : g.counter % g.difficulty.as_u32 = 0 ∧ g.game_over = false
  · rw [refresh_qualifying g w randoms hcond.1 hcond.2, simulation_step_snake]
    have hmt : ((g.bump_counter.make_treat randoms).1).snake.full_inv :=
      make_treat_inv g.bump_counter randoms h
    cases hnm : g.bump_counter.next_move with
    | none =>
      simp only [hnm]
      exact move_snake_inv _ hmt
    | some d =>
      simp only [hnm]
      exact move_snake_inv _ (turn_inv _ d hmt)
  · rw [refresh_not_qualifying g w randoms hcond]
    exact h

theorem step_inv (s : SysState) (e : Event) (h : s.game.snake.full_inv) :
    ((s.step e).game).snake.full_inv := by
  cases e with
  | tick randoms => exact refresh_frame_inv s.game s.writer randoms h
  | key ev =>
    show (s.game.accept_keyboard_input ev).snake.full_inv
    rw [(accept_fields s.game ev).1]
    exact h

theorem run_inv (es : List Event) : ∀ (s : SysState),
    s.game.snake.full_inv → ((s.run es).game).snake.full_inv := by
  induction es with
  | nil =>
    intro s h
    exact h
  | cons e rest ih =>
    intro s h
    have h2 := ih (s.step e) (step_inv s e h)
    simpa [SysState.run, List.foldl_cons] using h2

instance full_inv_decidable (s : Snake) : Decidable s.full_inv := by
  unfold Snake.full_inv
  exact inferInstance

theorem game_new_inv : Game.new.snake.full_inv := by decide

/-- The invariant items claim C2 states, verbatim: length in [1, 100], body
in the 23×78 play-field, no duplicate body cell, treat in-field and off the
body. -/
def Snake.claim_inv (s : Snake) : Prop :=
  1 ≤ s.length ∧ s.length ≤ 100 ∧
  (∀ p ∈ s.body, p.row < 23 ∧ p.col < 78) ∧
  s.body.Nodup ∧
  (match s.treat with
   | none => True
   | some p => p.row < 23 ∧ p.col < 78 ∧ p ∉ s.body)

theorem full_inv_claim (s : Snake) (h : s.full_inv) : s.claim_inv := by
  obtain ⟨h1, h2, h3, hb, hnd, htr⟩ := h
  refine ⟨h1, by simpa [MAX_SNAKE_LENGTH] using h2, ?_, hnd, ?_⟩
  · intro p hp
    have := hb p hp
    simpa [GAME_ROWS, GAME_COLUMNS] using this
  · unfold Snake.treat_inv at htr
    cases hto : s.treat with
    | none => trivial
    | some p =>
      rw [hto] at htr
      exact ⟨by simpa [GAME_ROWS] using htr.1,
        by simpa [GAME_COLUMNS] using htr.2.1, htr.2.2.1⟩

/-- C2: in every state reachable from `Game::new` by any sequence of ticks
(under any random outcomes) and key events, the snake's length is in
[1, 100], every live body position is inside the 23×78 play-field, no
position repeats in the live range, and the treat — when present — is
inside the play-field and on no body cell. -/
theorem C2_reachable_invariants (w0 : Writer) (es : List Event) :
    ((SysState.run ⟨Game.new, w0⟩ es).game).snake.claim_inv :=
  full_inv_claim _ (run_inv es ⟨Game.new, w0⟩ game_new_inv)

/-- Witness for C2: a concrete three-event history. -/
theorem C2_witness :
    ((SysState.run ⟨Game.new, writer0⟩
      [.tick [0, 0], .key ⟨.ArrowDown, .Down⟩, .tick [5, 5]]).game).snake.claim_inv :=
  C2_reachable_invariants writer0
    [.tick [0, 0], .key ⟨.ArrowDown, .Down⟩, .tick [5, 5]]

theorem full_inv_no_capacity_error (s : Snake) (h : s.full_inv) :
    s.move_snake.2 ≠ some "Snake is at maximum length" := by
  cases hns : s.next_step with
  | none =>
    rw [move_snake_bounds s hns]
    simp
  | some p =>
    by_cases htq : some p = s.treat
    · rw [move_route_grow s p hns htq]
      have hlen : s.length < MAX_SNAKE_LENGTH :=
        treat_some_length_lt s h p htq.symm
      have hmaxf : ¬ (s.is_at_maximum_length = true) := by
        simp only [Snake.is_at_maximum_length, decide_eq_true_eq]
        omega
      unfold Snake.grow
      rw [if_neg hmaxf]
      simp only [hns]
      by_cases hocc : s.occupies p = true
      · rw [if_neg (by simp [hocc])]
        simp
      · rw [if_pos (by simp [hocc])]
        simp
    · unfold Snake.move_snake
      simp only [hns]
      rw [if_neg htq]
      by_cases hocc : s.occupies p = true
      · rw [if_neg (by simp [hocc])]
        simp
      · rw [if_pos (by simp [hocc])]
        simp

/-- C7: in every reachable state, a treat only exists while the snake is
strictly below the maximum length 100, so when `move_snake` steps onto the
treat and calls `grow`, the "Snake is at maximum length" (GrowthAtCapacity)
branch is unreachable: `move_snake` can never return that error. -/
theorem C7_growth_at_capacity_unreachable (w0 : Writer) (es : List Event) :
    (((SysState.run ⟨Game.new, w0⟩ es).game).snake.treat.isSome = true →
      ((SysState.run ⟨Game.new, w0⟩ es).game).snake.length < MAX_SNAKE_LENGTH) ∧
    ((SysState.run ⟨Game.new, w0⟩ es).game).snake.move_snake.2 ≠
      some "Snake is at maximum length" := by
  have hinv := run_inv es ⟨Game.new, w0⟩ game_new_inv
  refine ⟨?_, full_inv_no_capacity_error _ hinv⟩
  intro hsome
  rcases hopt : ((SysState.run ⟨Game.new, w0⟩ es).game).snake.treat with _ | q
  · rw [hopt] at hsome
    cases hsome
  · exact treat_some_length_lt _ hinv q hopt

/-- Witness for C7 at a concrete reachable state (one qualifying tick, which
places a treat). -/
theorem C7_witness :
    (((SysState.run ⟨Game.new, writer0⟩ [.tick [0, 0]]).game).snake.treat.isSome =
        true →
      ((SysState.run ⟨Game.new, writer0⟩ [.tick [0, 0]]).game).snake.length <
        MAX_SNAKE_LENGTH) ∧
    ((SysState.run ⟨Game.new, writer0⟩ [.tick [0, 0]]).game).snake.move_snake.2 ≠
      some "Snake is at maximum length" :=
  C7_growth_at_capacity_unreachable writer0 [.tick [0, 0]]

end RustOS
